import Mathlib

/-!
Verification development for the sqruff grammar-combinator core
(`src/core/parser/grammar/sequence.rs` and `crates/lib-dialects/src/duckdb.rs`).

The Rust code is shallowly embedded: tokens become the `Seg` structure,
`Box<dyn Matchable>` trait objects become the `Matchable` structure of
functions, the mutable matching loop of `Sequence::match_segments` becomes
the explicit-state recursion `Sequence.go`, and fallible code returns
`Except`.  Collaborator functions that live outside the two source files
(`greedy_match`, `bracket_sensitive_look_ahead_match`, the dialect bracket
tables) are fields of `ParseContext`, so theorems quantify over every
possible behaviour of those collaborators; small helper types that the
source uses but whose definitions are elsewhere (`MatchResult`,
`ParseMode`, `SQLParseError`, meta segments) are modelled from the spec,
as marked on each declaration.
-/

namespace Sqruff

/-- Token model (spec section 3): raw text, kind tag, `is_code`
distinguishing whitespace and comments from code, plus the meta flag and
indent delta used for zero-width indent and dedent markers. -/
structure Seg where
  raw : String
  kind : String
  is_code : Bool
  is_meta : Bool
  indent_val : Int
deriving DecidableEq, Repr

/-- Modelled from the spec: a meta segment (`Indent` in
`parser/segments/meta.rs`, not under `src/`) is a zero-width marker
carrying an indent delta; `sequence.rs` buffers values of this type and
reads their `indent_val` field. -/
structure Indent where
  indent_val : Int
deriving DecidableEq, Repr

/-- Modelled from the spec: boxing an `Indent` as a segment (`.boxed()` in
the source) yields a zero-width token that is not code and never appears
as an original input token; metas are not counted as code. -/
def Indent.boxed (i : Indent) : Seg :=
  { raw := "", kind := "indent", is_code := false, is_meta := true,
    indent_val := i.indent_val }

/-- Match result carrier (spec section 3): the two ordered token spans
returned by every matcher.  The structure itself lives outside `src/`. -/
structure MatchResult where
  matched_segments : List Seg
  unmatched_segments : List Seg
deriving DecidableEq, Repr

/-- Modelled from the spec: a result has a match iff `matched_segments`
contains at least one code token (`MatchResult::has_match`, outside
`src/`). -/
def MatchResult.has_match (r : MatchResult) : Bool :=
  r.matched_segments.any (fun s => s.is_code)

/-- Modelled from the spec: `MatchResult::from_unmatched` (outside `src/`)
builds the no-match result that consumes nothing and leaves the whole
input unmatched. -/
def MatchResult.from_unmatched (segments : List Seg) : MatchResult :=
  { matched_segments := [], unmatched_segments := segments }

/-- Modelled from the spec: the error kinds of section 7 (`SQLParseError`
is defined outside `src/`). -/
inductive SQLParseError where
  | noMatch
  | unknownRule
  | duplicateRule
  | sealedDialect
  | unbalancedBrackets
  | internalInvariant
  | cancelled
  | other (msg : String)
deriving DecidableEq, Repr

/-- Modelled from the spec: the three parse modes of `ParseMode` in
`parser/types.rs` (outside `src/`), used by `sequence.rs`. -/
inductive ParseMode where
  | strict
  | greedy
  | greedyOnceStarted
deriving DecidableEq, Repr

/-- The `Box<dyn Matchable>` capability as `sequence.rs` consumes it: a
match function, the `is_optional` flag, the `simple` prefilter, and the
`downcast_ref::<Indent>` view used by the meta-handling step.  Because
`Sequence` hands its own context down unchanged (`deeper_match` with
`clear_terminators = false` and no pushed terminators), an element's
behaviour during one `Sequence::match_segments` call is a fixed function
of the segment slice, so the embedding closes matchers over the context. -/
structure Matchable where
  matchFn : List Seg → Except SQLParseError MatchResult
  is_optional : Bool
  simpleFn : Option (Finset String × Finset String)
  indent : Option Indent

/-- Ambient parse state as `sequence.rs` touches it: the inherited
terminator stack, plus the two match algorithms the file calls but does
not define (`greedy_match` and `bracket_sensitive_look_ahead_match`, both
outside `src/`) and the dialect bracket-set lookup used by `Bracketed`.
Making them fields lets every theorem quantify over all behaviours of
these external collaborators. -/
structure ParseContext where
  terminators : List Matchable
  greedy : List Seg → List Matchable → Except SQLParseError MatchResult
  lookAhead : List Seg → List Matchable → Matchable → Matchable → String →
    Except SQLParseError (List Seg × MatchResult × List Seg)
  getBracket : String → String → Option (Matchable × Matchable × Bool)

/-- `split_and_concatenate` from `sequence.rs`: split `segments` after
index `idx` and append `tail` to the second part. -/
def split_and_concatenate (segments : List Seg) (idx : Nat) (tail : List Seg) :
    List Seg × List Seg :=
  (segments.take (idx + 1), segments.drop (idx + 1) ++ tail)

/-- Index of the last code segment, mirroring the reversed `enumerate`
loop in `trim_to_terminator`. -/
def lastCodeIdx (segs : List Seg) : Option Nat :=
  match segs.reverse.findIdx? (fun s => s.is_code) with
  | some j => some (segs.length - 1 - j)
  | none => none

/-- `trim_to_terminator` from `sequence.rs`: run `greedy_match` (here the
context's `greedy` field; the surrounding `deeper_match` uses
`clear_terminators = false` with no pushed terminators, leaving the
context unchanged) and, if a terminator was found, split everything from
the terminator onward, together with any non-code immediately preceding
it, off into the returned tail.  Note that in the found-terminator branch
the source shadows and discards the `tail` argument. -/
def trim_to_terminator (segments tail : List Seg) (terminators : List Matchable)
    (ctx : ParseContext) : Except SQLParseError (List Seg × List Seg) :=
  match ctx.greedy segments terminators with
  | .error e => .error e
  | .ok term_match =>
    if term_match.has_match then
      match lastCodeIdx term_match.matched_segments with
      | some idx =>
        .ok (split_and_concatenate term_match.matched_segments idx
          term_match.unmatched_segments)
      | none => .ok (segments, tail)
    else .ok (segments, tail)

/-- `position_metas` from `sequence.rs`: flush buffered metas and non-code
segments; metas go first when all their indent values are non-negative,
otherwise the non-code segments go first. -/
def position_metas (metas : List Indent) (non_code : List Seg) : List Seg :=
  if metas.all (fun m => decide (0 ≤ m.indent_val)) then
    metas.map Indent.boxed ++ non_code
  else
    non_code ++ metas.map Indent.boxed

/-- The `Sequence` grammar combinator, fields as in `sequence.rs`. -/
structure Sequence where
  elements : List Matchable
  parse_mode : ParseMode
  allow_gaps : Bool
  is_optional : Bool
  terminators : List Matchable

/-- `Sequence::new`: strict mode, gaps allowed, not optional, no
terminators. -/
def Sequence.new (elements : List Matchable) : Sequence :=
  { elements := elements, parse_mode := ParseMode.strict, allow_gaps := true,
    is_optional := false, terminators := [] }

/-- Modelled from the spec: the `optional()` configuration hook (provided
by the `Config` helper outside `src/`) sets the `is_optional` flag. -/
def Sequence.optional (sq : Sequence) : Sequence :=
  { sq with is_optional := true }

/-- The loop state of `Sequence::match_segments`: the accumulated match,
the remaining input, the withheld tail, the `first_match` flag, and the
two buffers of pending metas and non-code segments. -/
structure SeqState where
  matched : List Seg
  unmatched : List Seg
  tail : List Seg
  firstMatch : Bool
  metaBuffer : List Indent
  nonCodeBuffer : List Seg

/-- Initial loop state: nothing matched, the whole input unmatched. -/
def SeqState.init (segments : List Seg) : SeqState :=
  { matched := [], unmatched := segments, tail := [], firstMatch := true,
    metaBuffer := [], nonCodeBuffer := [] }

/-- Step 2 of the loop (gap consumption): when gaps are allowed and
something has already been matched, move the leading non-code run of the
unmatched segments into the non-code buffer — but, exactly as the source
loop does, only when a code segment exists further on. -/
def consumeGaps (st : SeqState) : SeqState :=
  if st.unmatched.any (fun s => s.is_code) then
    { st with
      nonCodeBuffer := st.nonCodeBuffer ++ st.unmatched.takeWhile (fun s => !s.is_code),
      unmatched := st.unmatched.dropWhile (fun s => !s.is_code) }
  else st

/-- The gap-consumption step guarded as at its call site:
`self.allow_gaps && !matched_segments.is_empty()`. -/
def seqGapStep (sq : Sequence) (st : SeqState) : SeqState :=
  if sq.allow_gaps && !st.matched.isEmpty then consumeGaps st else st

/-- Step 5 of the loop (successful-match bookkeeping): flush the buffered
metas and non-code via `position_metas`, append the element's matched
span, advance the unmatched segments to the element's remainder, clear
both buffers. -/
def seqStep5 (sq : Sequence) (st : SeqState) (em : MatchResult) : SeqState :=
  { matched := (seqGapStep sq st).matched
      ++ position_metas (seqGapStep sq st).metaBuffer (seqGapStep sq st).nonCodeBuffer
      ++ em.matched_segments,
    unmatched := em.unmatched_segments,
    tail := (seqGapStep sq st).tail,
    firstMatch := (seqGapStep sq st).firstMatch,
    metaBuffer := [], nonCodeBuffer := [] }

/-- The element loop of `Sequence::match_segments`, one constructor case
per iteration.  `input` is the original argument, kept for the strict-mode
abort.  Mirrors the source exactly: metas are buffered without consuming
input; a failed optional element is skipped with buffers preserved; a
failed non-optional element aborts in strict mode and otherwise falls
through to the success bookkeeping; after the first iteration that
reaches that bookkeeping, `GreedyOnceStarted` mode trims the remainder to
the first terminator (inherited terminators first, then the sequence's
own) and withholds the tail; on exhaustion leftover metas are appended to
the match, the non-code buffer is prepended to the remainder, and the
tail is concatenated onto the end. -/
def Sequence.go (sq : Sequence) (input : List Seg) (ctx : ParseContext) :
    List Matchable → SeqState → Except SQLParseError MatchResult
  | [], st =>
    .ok { matched_segments := st.matched ++ st.metaBuffer.map Indent.boxed,
          unmatched_segments := (st.nonCodeBuffer ++ st.unmatched) ++ st.tail }
  | elem :: rest, st =>
    match elem.indent with
    | some ind =>
      Sequence.go sq input ctx rest { st with metaBuffer := st.metaBuffer ++ [ind] }
    | none =>
      match elem.matchFn (seqGapStep sq st).unmatched with
      | .error e => .error e
      | .ok em =>
        if ¬ em.has_match ∧ elem.is_optional then
          Sequence.go sq input ctx rest (seqGapStep sq st)
        else if ¬ em.has_match ∧ sq.parse_mode = ParseMode.strict then
          .ok (MatchResult.from_unmatched input)
        else if (seqStep5 sq st em).firstMatch ∧ sq.parse_mode = ParseMode.greedyOnceStarted then
          match trim_to_terminator (seqStep5 sq st em).unmatched (seqStep5 sq st em).tail
              (ctx.terminators ++ sq.terminators) ctx with
          | .error e => .error e
          | .ok (u, t) =>
            Sequence.go sq input ctx rest
              { seqStep5 sq st em with unmatched := u, tail := t, firstMatch := false }
        else
          Sequence.go sq input ctx rest (seqStep5 sq st em)

/-- `Sequence::match_segments`: run the element loop from the initial
state. -/
def Sequence.matchSegments (sq : Sequence) (segments : List Seg)
    (ctx : ParseContext) : Except SQLParseError MatchResult :=
  Sequence.go sq segments ctx sq.elements (SeqState.init segments)

/-- The accumulator loop of `Sequence::simple`: extend the running raw and
type prefilter unions with each element's `simple` result (`None` from any
scanned element makes the whole `None`), stopping after the first
non-optional element. -/
def simpleGo : List Matchable → Finset String → Finset String →
    Option (Finset String × Finset String)
  | [], raws, types => some (raws, types)
  | e :: rest, raws, types =>
    match e.simpleFn with
    | none => none
    | some (r, t) =>
      if ¬ e.is_optional then some (raws ∪ r, types ∪ t)
      else simpleGo rest (raws ∪ r) (types ∪ t)

/-- `Sequence::simple`: union of the prefilters of the leading optional
elements and the first non-optional element. -/
def Sequence.simple (sq : Sequence) : Option (Finset String × Finset String) :=
  simpleGo sq.elements ∅ ∅

/-- `Sequence::copy`: clone with inserted matchers appended to the element
list and terminators replaced or extended. -/
def Sequence.copy (sq : Sequence) (insert : Option (List Matchable))
    (replace_terminators : Bool) (terminators : List Matchable) : Sequence :=
  { sq with
    elements := sq.elements ++ insert.getD [],
    terminators := if replace_terminators then terminators
      else sq.terminators ++ terminators }

/-- Modelled from the spec: `trim_non_code_segments` (in
`parser/helpers.rs`, outside `src/`) returns the three-way split of
leading non-code, interior, and trailing non-code, scanning from both
ends. -/
def trim_non_code_segments (segments : List Seg) :
    List Seg × List Seg × List Seg :=
  let pre := segments.takeWhile (fun s => !s.is_code)
  let rest := segments.dropWhile (fun s => !s.is_code)
  let post := (rest.reverse.takeWhile (fun s => !s.is_code)).reverse
  let mid := (rest.reverse.dropWhile (fun s => !s.is_code)).reverse
  (pre, mid, post)

/-- The `Bracketed` grammar combinator, fields as in `sequence.rs`; the
wrapped child grammar is the `this : Sequence` field. -/
structure Bracketed where
  bracket_type : String
  bracket_pairs_set : String
  allow_gaps : Bool
  this : Sequence

/-- `Bracketed::new`: round brackets from the `bracket_pairs` set, gaps
allowed, child grammar a fresh `Sequence`. -/
def Bracketed.new (args : List Matchable) : Bracketed :=
  { bracket_type := "round", bracket_pairs_set := "bracket_pairs",
    allow_gaps := true, this := Sequence.new args }

/-- Outcome of `Bracketed::match_segments` in the embedding: the partially
implemented source can return a `MatchResult`, propagate an
`SQLParseError`, or abort the process at a `panic!`, `unimplemented!` or
`unwrap` site — the `panicked` constructor records the panic message. -/
inductive Outcome where
  | ok (r : MatchResult)
  | err (e : SQLParseError)
  | panicked (msg : String)
deriving DecidableEq, Repr

/-- Whether an outcome is a panic or a propagated error. -/
def Outcome.isAbnormal : Outcome → Bool
  | .ok _ => false
  | .err _ => true
  | .panicked _ => true

/-- Message of the `unimplemented!` sites in `Bracketed::match_segments`. -/
def notImplementedMsg : String := "not implemented"

/-- Message of the missing-close panic in `Bracketed::match_segments`
(source text: Couldnt find closing bracket for opening bracket). -/
def closeMsg : String := "Couldnt find closing bracket for opening bracket."

/-- Message of the bare `panic!()` after a failed content match. -/
def contentMsg : String := "explicit panic"

/-- Message of the `.unwrap()` on a failed bracket-set lookup. -/
def unwrapMsg : String := "called unwrap on an Err value"

/-- The gap-trimmed buffer `seg_buff` computed at the top of
`Bracketed::match_segments`. -/
def Bracketed.segBuff (b : Bracketed) (segments : List Seg) : List Seg :=
  if b.allow_gaps then (trim_non_code_segments segments).2.1 else segments

/-- The `seg_buff.last().map_or(false, |seg| seg.is_type("bracketed"))`
test in `Bracketed::match_segments`. -/
def lastIsBracketed (segs : List Seg) : Bool :=
  (segs.getLast?.map (fun s => s.kind == "bracketed")).getD false

/-- `Bracketed::match_segments` from `sequence.rs`, step for step: trim
gaps; resolve the bracket pair from the dialect (`unwrap` panics when the
lookup fails); abort at the unimplemented pre-folded-bracketed case; match
the open bracket against the original segments (no match is an early
no-match return, an error propagates); find the close bracket with the
bracket-sensitive look-ahead (inside `deeper_match` with cleared
terminators) and panic when none is found; trim and match the inner
grammar against the content (again under cleared terminators), panicking
when it does not match; assemble the span and abort at the final
`unimplemented!`. -/
def Bracketed.match_segments (b : Bracketed) (segments : List Seg)
    (ctx : ParseContext) : Outcome :=
  match ctx.getBracket b.bracket_pairs_set b.bracket_type with
  | none => .panicked unwrapMsg
  | some (start_bracket, end_bracket, _bracket_persists) =>
    if lastIsBracketed (Bracketed.segBuff b segments) then
      .panicked notImplementedMsg
    else
      match start_bracket.matchFn segments with
      | .error e => .err e
      | .ok start_match =>
        if ¬ start_match.has_match then
          .ok (MatchResult.from_unmatched segments)
        else
          match ctx.lookAhead start_match.unmatched_segments [end_bracket]
              start_bracket end_bracket b.bracket_pairs_set with
          | .error e => .err e
          | .ok (content_segs, end_match, _) =>
            if ¬ end_match.has_match then .panicked closeMsg
            else
              match (if b.allow_gaps then trim_non_code_segments content_segs
                  else ([], [], [])) with
              | (pre_segs, content_segs2, _post_segs) =>
                match Sequence.matchSegments b.this content_segs2
                    { ctx with terminators := [] } with
                | .error e => .err e
                | .ok content_match =>
                  if ¬ content_match.has_match then .panicked contentMsg
                  else
                    match start_match.matched_segments ++ pre_segs
                        ++ end_match.matched_segments with
                    | _assembled => .panicked notImplementedMsg

/-- Character-level case folding (an executable equivalent of
`String.toLower`, whose builtin loop is opaque to the kernel). -/
def lowerStr (s : String) : String := ⟨s.data.map Char.toLower⟩

/-- Modelled from the spec: `StringParser` (section 4.2, outside `src/`)
matches when the first token is code and its raw text (case folded when
requested) equals the target, returning that one token rewrapped with the
given kind, and otherwise reports no match. -/
def stringParserM (target : String) (kind : String) (ci : Bool) : Matchable :=
  { matchFn := fun segs =>
      .ok <| match segs with
        | [] => MatchResult.from_unmatched []
        | s :: rest =>
          if s.is_code && (if ci then lowerStr s.raw == lowerStr target
              else s.raw == target) then
            { matched_segments := [{ s with kind := kind }],
              unmatched_segments := rest }
          else MatchResult.from_unmatched (s :: rest),
    is_optional := false,
    simpleFn := some ({target}, ∅),
    indent := none }

/-- Modelled from the spec: `Ref::keyword(word)` (section 4.1, outside
`src/`) resolves to a case-insensitive exact match on a single code token,
rewrapped with the kind `keyword`. -/
def refKeyword (w : String) : Matchable := stringParserM w "keyword" true

/-- View a `Sequence` as a `Matchable` element, closed over the context it
will be matched in (the source passes its context down unchanged). -/
def Sequence.toMatchable (sq : Sequence) (ctx : ParseContext) : Matchable :=
  { matchFn := fun segs => Sequence.matchSegments sq segs ctx,
    is_optional := sq.is_optional,
    simpleFn := Sequence.simple sq,
    indent := none }

/-- A code token for the test vocabulary, as produced by the repository's
own `test_segments` fixture. -/
def codeTok (r : String) : Seg :=
  { raw := r, kind := "raw", is_code := true, is_meta := false, indent_val := 0 }

/-- A whitespace token: non-code, not a meta. -/
def wsTok : Seg :=
  { raw := " ", kind := "whitespace", is_code := false, is_meta := false,
    indent_val := 0 }

/-- Test-harness matcher in the style of the source file's own tests'
`StringParser`: match the leading token when it is code with the exact
raw, returning it unchanged, else report no match. -/
def strMatcher (target : String) : Matchable :=
  { matchFn := fun segs =>
      .ok <| match segs with
        | [] => MatchResult.from_unmatched []
        | s :: rest =>
          if s.is_code && s.raw == target then
            { matched_segments := [s], unmatched_segments := rest }
          else MatchResult.from_unmatched (s :: rest),
    is_optional := false,
    simpleFn := some ({target}, ∅),
    indent := none }

/-- Test-harness matcher that consumes its whole input. -/
def consumeAllMatcher : Matchable :=
  { matchFn := fun segs =>
      .ok { matched_segments := segs, unmatched_segments := [] },
    is_optional := false,
    simpleFn := none,
    indent := none }

/-- A meta element wrapping an `Indent`, as built by
`Indent::new(...).to_matchable()` in the source tests. -/
def indentElem (v : Int) : Matchable :=
  { matchFn := fun segs => .ok (MatchResult.from_unmatched segs),
    is_optional := false,
    simpleFn := none,
    indent := some { indent_val := v } }

/-- A `greedy_match` collaborator for witnesses, modelled from the spec:
scan for the first token with the given raw (the terminator) and return
everything before it as matched and the terminator with the rest as
unmatched; no match when the raw does not occur. -/
def greedyOnRaw (r : String) : List Seg → List Matchable →
    Except SQLParseError MatchResult :=
  fun segs _ =>
    match segs.findIdx? (fun s => s.raw == r) with
    | some i => .ok { matched_segments := segs.take i,
                      unmatched_segments := segs.drop i }
    | none => .ok (MatchResult.from_unmatched segs)

/-- A `greedy_match` collaborator that never finds a terminator. -/
def greedyNone : List Seg → List Matchable → Except SQLParseError MatchResult :=
  fun segs _ => .ok (MatchResult.from_unmatched segs)

/-- A bracket-sensitive look-ahead collaborator that never finds the
close bracket. -/
def lookAheadNone : List Seg → List Matchable → Matchable → Matchable →
    String → Except SQLParseError (List Seg × MatchResult × List Seg) :=
  fun segs _ _ _ _ => .ok (segs, MatchResult.from_unmatched segs, [])

/-- A parse context with no inherited terminators, a terminator-free
greedy match, a close-blind look-ahead, and an empty bracket table. -/
def ctx0 : ParseContext :=
  { terminators := [],
    greedy := greedyNone,
    lookAhead := lookAheadNone,
    getBracket := fun _ _ => none }

/-- Modelled from the spec: the ANSI dialect's `UnionGrammar` (in
`crates/lib-dialects/src/ansi.rs`, not under `src/`); the spec pins down
only that it is the sequence grammar that fully matches the `UNION`
keyword on its own (scenario 4), which is all the DuckDB claim needs. -/
def ansiUnionGrammar : Sequence := Sequence.new [refKeyword "UNION"]

/-- The optional `BY NAME` tail built in `duckdb.rs`:
`Sequence::new([Ref::keyword("BY"), Ref::keyword("NAME")])` configured
optional, viewed as an element under the ambient context. -/
def byNameElem : Matchable :=
  Sequence.toMatchable (Sequence.optional
    (Sequence.new [refKeyword "BY", refKeyword "NAME"])) ctx0

/-- The DuckDB `UnionGrammar` exactly as `duckdb.rs` builds it: the ANSI
`UnionGrammar` with the optional `BY NAME` sequence appended through the
`copy` hook (insert only, terminators untouched). -/
def duckdbUnionGrammar : Sequence :=
  Sequence.copy ansiUnionGrammar (some [byNameElem]) false []

/-- The token stream `UNION BY NAME` with whitespace gaps. -/
def streamUnionByName : List Seg :=
  [codeTok "UNION", wsTok, codeTok "BY", wsTok, codeTok "NAME"]

/-- The token stream of `UNION` alone. -/
def streamUnion : List Seg := [codeTok "UNION"]

/-- Whether a matcher outcome is a full match: it succeeded, consumed at
least one code token, and left nothing unmatched. -/
def fullMatchRes : Except SQLParseError MatchResult → Bool
  | .ok r => r.has_match && r.unmatched_segments.isEmpty
  | .error _ => false

/-- Drop the zero-width meta segments, keeping every original token. -/
def nonMetas (xs : List Seg) : List Seg := xs.filter (fun s => !s.is_meta)

/-- Token conservation for a single matcher, the universal property the
spec asserts of every matcher: whatever the matcher returns, matched and
unmatched together are the input, up to inserted zero-width metas. -/
def conserves (m : Matchable) : Prop :=
  ∀ segs r, m.matchFn segs = .ok r →
    nonMetas (r.matched_segments ++ r.unmatched_segments) = nonMetas segs

/-- Token conservation for the context's `greedy_match` collaborator,
which the spec describes as returning the plain split of its input at the
first terminator. -/
def greedyConserves (ctx : ParseContext) : Prop :=
  ∀ segs ts r, ctx.greedy segs ts = .ok r →
    r.matched_segments ++ r.unmatched_segments = segs

/-- Loop invariant for the conservation proof: the accumulated match, the
pending non-code buffer, the remaining input and the withheld tail
together carry exactly the non-meta tokens of the original input; and the
tail is still empty while the `first_match` flag is set (it is only ever
filled by the trim step that clears the flag). -/
def seqInv (input : List Seg) (st : SeqState) : Prop :=
  (nonMetas st.matched ++ (nonMetas st.nonCodeBuffer
      ++ (nonMetas st.unmatched ++ nonMetas st.tail)) = nonMetas input)
  ∧ (st.firstMatch = true → st.tail = [])

/-- The union of the elements' `simple` prefilters, written to the spec's
words for comparison with `Sequence::simple`: the componentwise union of
the raw and kind sets over the listed elements, `None` as soon as any of
them cannot predict. -/
def simpleUnionSpec : List Matchable → Option (Finset String × Finset String)
  | [] => some (∅, ∅)
  | e :: es =>
    match e.simpleFn, simpleUnionSpec es with
    | some (r, t), some (R, T) => some (r ∪ R, t ∪ T)
    | _, _ => none

/-- `strMatcher` configured as an optional element. -/
def optMatcher (target : String) : Matchable :=
  { strMatcher target with is_optional := true }

/-- Greedy-mode sequence for the fall-through evaluation: two required
elements. -/
def seqC2 : Sequence :=
  { elements := [strMatcher "a", strMatcher "b"], parse_mode := ParseMode.greedy,
    allow_gaps := true, is_optional := false, terminators := [] }

/-- GreedyOnceStarted sequence whose first required element never matches
and whose second consumes everything it is offered. -/
def seqC5 : Sequence :=
  { elements := [strMatcher "a", consumeAllMatcher],
    parse_mode := ParseMode.greedyOnceStarted,
    allow_gaps := true, is_optional := false, terminators := [] }

/-- Context whose `greedy_match` finds a terminator at the token `t`. -/
def ctxC5 : ParseContext := { ctx0 with greedy := greedyOnRaw "t" }

/-- Input `x t b` for the GreedyOnceStarted evaluation. -/
def inC5 : List Seg := [codeTok "x", codeTok "t", codeTok "b"]

/-- A round-bracketed grammar around a single `x`. -/
def bC3 : Bracketed := Bracketed.new [strMatcher "x"]

/-- Context resolving the round bracket pair to literal parentheses, with
a look-ahead that never finds the close bracket. -/
def ctx3 : ParseContext :=
  { ctx0 with
    getBracket := fun pairs ty =>
      if pairs == "bracket_pairs" && ty == "round" then
        some (strMatcher "(", strMatcher ")", true)
      else none }

/-- Input whose open bracket matches but that contains no close bracket. -/
def inOpenNoClose : List Seg := [codeTok "(", codeTok "x"]

/-- Input on which the open bracket does not match. -/
def inNoOpen : List Seg := [codeTok "y"]

/-- A pre-folded composite segment of kind `bracketed`. -/
def bracketedSeg : Seg :=
  { raw := "(x)", kind := "bracketed", is_code := true, is_meta := false,
    indent_val := 0 }

/-- Input that ends with a pre-folded `bracketed` segment and on which the
open bracket does not match. -/
def inPreBracketed : List Seg := [bracketedSeg]

/-- Sequence with a leading optional element, then a required one, then a
trailing element, for the `simple` witness. -/
def sqC8a : Sequence :=
  Sequence.new [optMatcher "a", strMatcher "b", strMatcher "c"]

/-- Sequence whose elements are all optional, for the `simple` witness. -/
def sqC8b : Sequence := Sequence.new [optMatcher "a", optMatcher "b"]

/-- Claim C4: meta positioning — when every buffered meta has a
non-negative indent value the flush emits the metas before the buffered
non-code segments, and when at least one indent value is negative it
emits the non-code segments first; `List.map` keeps each group in its
internal order. -/
theorem claim_C4_meta_positioning (metas : List Indent) (non_code : List Seg) :
    ((∀ m ∈ metas, 0 ≤ m.indent_val) →
      position_metas metas non_code = metas.map Indent.boxed ++ non_code)
    ∧ ((∃ m ∈ metas, m.indent_val < 0) →
      position_metas metas non_code = non_code ++ metas.map Indent.boxed) := by
  constructor
  · intro h
    have hall : metas.all (fun m => decide (0 ≤ m.indent_val)) = true := by
      rw [List.all_eq_true]
      intro m hm
      exact decide_eq_true (h m hm)
    simp [position_metas, hall]
  · rintro ⟨m, hm, hneg⟩
    have hall : ¬ metas.all (fun m => decide (0 ≤ m.indent_val)) = true := by
      rw [List.all_eq_true]
      intro hforall
      have := hforall m hm
      simp at this
      omega
    simp [position_metas, hall]

/-- Witness for C4 at concrete buffers: one indent meta goes before the
whitespace gap, one dedent meta goes after it. -/
theorem witness_C4_meta_positioning :
    position_metas [{ indent_val := 1 }] [wsTok]
        = [({ indent_val := 1 } : Indent)].map Indent.boxed ++ [wsTok]
    ∧ position_metas [{ indent_val := -1 }] [wsTok]
        = [wsTok] ++ [({ indent_val := -1 } : Indent)].map Indent.boxed :=
  ⟨(claim_C4_meta_positioning _ _).1 (by decide),
   (claim_C4_meta_positioning _ _).2 (by decide)⟩

/-- Claim C10: frame effect of `Sequence::copy` — parse mode, gap policy
and optionality are unchanged, inserted matchers are appended after the
original elements in order, and the terminators are replaced by or
extended with the given list according to the flag. -/
theorem claim_C10_copy_frame (sq : Sequence) (insert : Option (List Matchable))
    (replace_terminators : Bool) (terminators : List Matchable) :
    (Sequence.copy sq insert replace_terminators terminators).parse_mode = sq.parse_mode
    ∧ (Sequence.copy sq insert replace_terminators terminators).allow_gaps = sq.allow_gaps
    ∧ (Sequence.copy sq insert replace_terminators terminators).is_optional = sq.is_optional
    ∧ (Sequence.copy sq insert replace_terminators terminators).elements
        = sq.elements ++ insert.getD []
    ∧ (Sequence.copy sq insert replace_terminators terminators).terminators
        = (if replace_terminators then terminators else sq.terminators ++ terminators) :=
  ⟨rfl, rfl, rfl, rfl, rfl⟩

/-- Claim C2 (code-bug evaluation): in `Greedy` mode, after the
non-optional first element fails on the input `b`, the loop does not stop
— it falls through to the success bookkeeping and the second element is
still matched, so the whole call returns `b` as matched instead of the
no-further-matching result the claim describes. -/
theorem claim_C2_greedy_fallthrough_eval :
    Sequence.matchSegments seqC2 [codeTok "b"] ctx0 =
      .ok { matched_segments := [codeTok "b"], unmatched_segments := [] } := rfl

/-- Claim C5 (code-bug evaluation): in `GreedyOnceStarted` mode on
`x t b`, the terminator look-ahead fires immediately after the FAILED
non-optional first element: with a greedy collaborator that finds the
terminator `t` the tail `t b` is withheld from the second element (which
therefore only consumes `x`), while with a terminator-blind collaborator
the second element consumes the whole input — so the look-ahead did run
before any successful element match. -/
theorem claim_C5_trim_after_failure_eval :
    Sequence.matchSegments seqC5 inC5 ctxC5 =
      .ok { matched_segments := [codeTok "x"],
            unmatched_segments := [codeTok "t", codeTok "b"] }
    ∧ Sequence.matchSegments seqC5 inC5 ctx0 =
      .ok { matched_segments := [codeTok "x", codeTok "t", codeTok "b"],
            unmatched_segments := [] } :=
  ⟨rfl, rfl⟩

/-- Claim C7: the DuckDB `UnionGrammar` is the ANSI `UnionGrammar` with
the optional `BY NAME` sequence appended as a trailing element through the
`copy` hook, and it fully matches both `UNION BY NAME` and `UNION`
alone. -/
theorem claim_C7_duckdb_union :
    duckdbUnionGrammar = Sequence.copy ansiUnionGrammar (some [byNameElem]) false []
    ∧ duckdbUnionGrammar.elements = ansiUnionGrammar.elements ++ [byNameElem]
    ∧ fullMatchRes (Sequence.matchSegments duckdbUnionGrammar streamUnionByName ctx0) = true
    ∧ fullMatchRes (Sequence.matchSegments duckdbUnionGrammar streamUnion ctx0) = true :=
  ⟨rfl, rfl, rfl, rfl⟩

/-- Claim C6: strict-mode atomicity — whenever the matching loop of
`Sequence::match_segments` (of which `Sequence.matchSegments sq input ctx`
is the run from `SeqState.init input`) encounters a non-meta element that
fails to match and is not optional while the parse mode is `Strict`, it
returns the no-match result: matched segments empty and the unmatched
segments exactly the original input, with no metas emitted. -/
theorem claim_C6_strict_abort (sq : Sequence) (input : List Seg)
    (ctx : ParseContext) (elem : Matchable) (rest : List Matchable)
    (st : SeqState) (em : MatchResult)
    (hmode : sq.parse_mode = ParseMode.strict)
    (hmeta : elem.indent = none)
    (hm : elem.matchFn (seqGapStep sq st).unmatched = .ok em)
    (hnm : em.has_match = false)
    (hopt : elem.is_optional = false) :
    Sequence.go sq input ctx (elem :: rest) st =
      .ok { matched_segments := [], unmatched_segments := input } := by
  simp [Sequence.go, hmeta, hm, hnm, hopt, hmode, MatchResult.from_unmatched]

/-- Filtering metas distributes over concatenation. -/
theorem nonMetas_append (a b : List Seg) :
    nonMetas (a ++ b) = nonMetas a ++ nonMetas b := by
  simp [nonMetas]

/-- The meta filter of the empty list. -/
theorem nonMetas_nil : nonMetas ([] : List Seg) = [] := rfl

/-- Boxed metas are all dropped by the meta filter. -/
theorem nonMetas_boxed (l : List Indent) :
    nonMetas (l.map Indent.boxed) = [] := by
  induction l with
  | nil => rfl
  | cons i l ih =>
    have hstep : nonMetas (Indent.boxed i :: List.map Indent.boxed l)
        = nonMetas (List.map Indent.boxed l) := by
      simp [nonMetas, Indent.boxed]
    rw [List.map_cons, hstep, ih]

/-- Flushing buffers through `position_metas` adds only metas: the
non-meta tokens of the flush are exactly those of the non-code buffer. -/
theorem nonMetas_position_metas (m : List Indent) (nc : List Seg) :
    nonMetas (position_metas m nc) = nonMetas nc := by
  unfold position_metas
  split <;> simp [nonMetas_append, nonMetas_boxed]

/-- Gap consumption only moves tokens from the unmatched segments into
the non-code buffer: every other field is untouched and the
buffer-plus-remainder concatenation is preserved. -/
theorem consumeGaps_spec (st : SeqState) :
    (consumeGaps st).matched = st.matched
    ∧ (consumeGaps st).tail = st.tail
    ∧ (consumeGaps st).firstMatch = st.firstMatch
    ∧ (consumeGaps st).metaBuffer = st.metaBuffer
    ∧ (consumeGaps st).nonCodeBuffer ++ (consumeGaps st).unmatched
        = st.nonCodeBuffer ++ st.unmatched := by
  unfold consumeGaps
  split
  · exact ⟨rfl, rfl, rfl, rfl, by
      simp [List.append_assoc, List.takeWhile_append_dropWhile]⟩
  · exact ⟨rfl, rfl, rfl, rfl, rfl⟩

/-- The guarded gap step has the same frame as `consumeGaps`. -/
theorem seqGapStep_spec (sq : Sequence) (st : SeqState) :
    (seqGapStep sq st).matched = st.matched
    ∧ (seqGapStep sq st).tail = st.tail
    ∧ (seqGapStep sq st).firstMatch = st.firstMatch
    ∧ (seqGapStep sq st).metaBuffer = st.metaBuffer
    ∧ (seqGapStep sq st).nonCodeBuffer ++ (seqGapStep sq st).unmatched
        = st.nonCodeBuffer ++ st.unmatched := by
  unfold seqGapStep
  split
  · exact consumeGaps_spec st
  · exact ⟨rfl, rfl, rfl, rfl, rfl⟩

/-- Regrouping the two middle factors of a four-way concatenation. -/
theorem append4_congr {α : Type} (a b c d b' c' : List α)
    (h : b ++ c = b' ++ c') :
    a ++ (b ++ (c ++ d)) = a ++ (b' ++ (c' ++ d)) := by
  calc a ++ (b ++ (c ++ d)) = a ++ ((b ++ c) ++ d) := by
        rw [List.append_assoc]
    _ = a ++ ((b' ++ c') ++ d) := by rw [h]
    _ = a ++ (b' ++ (c' ++ d)) := by rw [List.append_assoc]

/-- The conservation invariant survives the gap step. -/
theorem seqInv_gapStep (input : List Seg) (sq : Sequence) (st : SeqState)
    (h : seqInv input st) : seqInv input (seqGapStep sq st) := by
  obtain ⟨gm, gt, gf, _, gb⟩ := seqGapStep_spec sq st
  constructor
  · have hmid : nonMetas (seqGapStep sq st).nonCodeBuffer
        ++ nonMetas (seqGapStep sq st).unmatched
        = nonMetas st.nonCodeBuffer ++ nonMetas st.unmatched := by
      rw [← nonMetas_append, gb, nonMetas_append]
    rw [gm, gt]
    exact (append4_congr _ _ _ _ _ _ hmid).trans h.1
  · intro hf
    rw [gt]
    exact h.2 (gf ▸ hf)

/-- The conservation invariant survives buffering a meta element. -/
theorem seqInv_meta (input : List Seg) (st : SeqState) (ind : Indent)
    (h : seqInv input st) :
    seqInv input { st with metaBuffer := st.metaBuffer ++ [ind] } := h

/-- The conservation invariant survives the success bookkeeping of step 5,
given that the element's match itself conserved the tokens it was
offered. -/
theorem seqInv_step5 (input : List Seg) (sq : Sequence) (st : SeqState)
    (em : MatchResult) (h : seqInv input st)
    (hc : nonMetas (em.matched_segments ++ em.unmatched_segments)
        = nonMetas (seqGapStep sq st).unmatched) :
    seqInv input (seqStep5 sq st em) := by
  have h1 := seqInv_gapStep input sq st h
  obtain ⟨_, gt, gf, _, _⟩ := seqGapStep_spec sq st
  constructor
  · show nonMetas ((seqGapStep sq st).matched
        ++ position_metas (seqGapStep sq st).metaBuffer (seqGapStep sq st).nonCodeBuffer
        ++ em.matched_segments)
      ++ (nonMetas ([] : List Seg)
        ++ (nonMetas em.unmatched_segments ++ nonMetas (seqGapStep sq st).tail))
      = nonMetas input
    have hem : nonMetas em.matched_segments ++ nonMetas em.unmatched_segments
        = nonMetas (seqGapStep sq st).unmatched := by
      rw [← nonMetas_append]; exact hc
    simp only [nonMetas_append, nonMetas_position_metas, List.append_assoc]
    show nonMetas (seqGapStep sq st).matched
        ++ (nonMetas (seqGapStep sq st).nonCodeBuffer
        ++ (nonMetas em.matched_segments
        ++ (nonMetas ([] : List Seg)
        ++ (nonMetas em.unmatched_segments ++ nonMetas (seqGapStep sq st).tail))))
      = nonMetas input
    have hnil : nonMetas ([] : List Seg) = [] := rfl
    rw [hnil, List.nil_append]
    have hgrp : nonMetas em.matched_segments
        ++ (nonMetas em.unmatched_segments ++ nonMetas (seqGapStep sq st).tail)
        = nonMetas (seqGapStep sq st).unmatched ++ nonMetas (seqGapStep sq st).tail := by
      rw [← List.append_assoc, hem]
    rw [hgrp]
    exact h1.1
  · intro hf
    show (seqGapStep sq st).tail = []
    exact h1.2 ((show (seqStep5 sq st em).firstMatch = (seqGapStep sq st).firstMatch from rfl) ▸ hf)

/-- The conservation invariant survives replacing the remainder by any
split of it into new unmatched segments and a new tail, clearing the
`first_match` flag (this is the shape of the trim step, whose tail
argument is empty whenever it runs). -/
theorem seqInv_retail (input : List Seg) (st : SeqState) (u t : List Seg)
    (h : seqInv input st) (htail : st.tail = [])
    (huts : u ++ t = st.unmatched) :
    seqInv input { st with unmatched := u, tail := t, firstMatch := false } := by
  constructor
  · show nonMetas st.matched ++ (nonMetas st.nonCodeBuffer
        ++ (nonMetas u ++ nonMetas t)) = nonMetas input
    have h1 := h.1
    rw [htail] at h1
    have hnil : nonMetas ([] : List Seg) = [] := rfl
    rw [hnil, List.append_nil] at h1
    rw [← nonMetas_append, huts]
    exact h1
  · intro hf
    exact absurd hf (by simp)

/-- `trim_to_terminator` with an empty tail argument only splits its
input, whenever the context's greedy collaborator conserves tokens. -/
theorem trim_conserves (ctx : ParseContext) (hg : greedyConserves ctx)
    (segs : List Seg) (ts : List Matchable) (u t : List Seg)
    (h : trim_to_terminator segs [] ts ctx = .ok (u, t)) : u ++ t = segs := by
  unfold trim_to_terminator at h
  cases hgr : ctx.greedy segs ts with
  | error e => rw [hgr] at h; exact Except.noConfusion h
  | ok tm =>
    rw [hgr] at h
    have hc := hg segs ts tm hgr
    dsimp only at h
    split at h
    · cases hl : lastCodeIdx tm.matched_segments with
      | some idx =>
        rw [hl] at h
        have hp := Except.ok.inj h
        unfold split_and_concatenate at hp
        have hu : tm.matched_segments.take (idx + 1) = u := congrArg Prod.fst hp
        have ht : tm.matched_segments.drop (idx + 1) ++ tm.unmatched_segments = t :=
          congrArg Prod.snd hp
        rw [← hu, ← ht, ← List.append_assoc, List.take_append_drop]
        exact hc
      | none =>
        rw [hl] at h
        have hp := Except.ok.inj h
        have hu : segs = u := congrArg Prod.fst hp
        have ht : ([] : List Seg) = t := congrArg Prod.snd hp
        rw [← hu, ← ht, List.append_nil]
    · have hp := Except.ok.inj h
      have hu : segs = u := congrArg Prod.fst hp
      have ht : ([] : List Seg) = t := congrArg Prod.snd hp
      rw [← hu, ← ht, List.append_nil]

/-- Conservation of the element loop: starting from any state satisfying
the invariant, with every remaining element and the greedy collaborator
conserving tokens, any successful run of `Sequence.go` returns a result
whose matched and unmatched spans together carry exactly the non-meta
tokens of the original input. -/
theorem go_conserves (sq : Sequence) (input : List Seg) (ctx : ParseContext)
    (hg : greedyConserves ctx) :
    ∀ elems : List Matchable, (∀ e ∈ elems, conserves e) →
    ∀ st : SeqState, seqInv input st →
    ∀ r, Sequence.go sq input ctx elems st = .ok r →
    nonMetas (r.matched_segments ++ r.unmatched_segments) = nonMetas input := by
  intro elems
  induction elems with
  | nil =>
    intro _ st hinv r hr
    simp only [Sequence.go] at hr
    have hrr := Except.ok.inj hr
    subst hrr
    show nonMetas ((st.matched ++ st.metaBuffer.map Indent.boxed)
        ++ ((st.nonCodeBuffer ++ st.unmatched) ++ st.tail)) = nonMetas input
    simp only [nonMetas_append, nonMetas_boxed, List.append_nil, List.append_assoc]
    exact hinv.1
  | cons elem rest ih =>
    intro hcons st hinv r hr
    have hrest : ∀ e ∈ rest, conserves e :=
      fun e he => hcons e (List.mem_cons_of_mem _ he)
    simp only [Sequence.go] at hr
    cases hi : elem.indent with
    | some ind =>
      rw [hi] at hr
      exact ih hrest _ (seqInv_meta input st ind hinv) r hr
    | none =>
      rw [hi] at hr
      dsimp only at hr
      cases hm : elem.matchFn (seqGapStep sq st).unmatched with
      | error e => rw [hm] at hr; exact Except.noConfusion hr
      | ok em =>
        rw [hm] at hr
        dsimp only at hr
        have hinv1 : seqInv input (seqGapStep sq st) := seqInv_gapStep input sq st hinv
        have hcem : nonMetas (em.matched_segments ++ em.unmatched_segments)
            = nonMetas (seqGapStep sq st).unmatched :=
          hcons elem (by simp) (seqGapStep sq st).unmatched em hm
        have hinv2 : seqInv input (seqStep5 sq st em) :=
          seqInv_step5 input sq st em hinv hcem
        by_cases h1 : ¬ em.has_match ∧ elem.is_optional
        · rw [if_pos h1] at hr
          exact ih hrest _ hinv1 r hr
        · rw [if_neg h1] at hr
          by_cases h2 : ¬ em.has_match ∧ sq.parse_mode = ParseMode.strict
          · rw [if_pos h2] at hr
            have hrr := Except.ok.inj hr
            subst hrr
            rfl
          · rw [if_neg h2] at hr
            by_cases h3 : (seqStep5 sq st em).firstMatch
                ∧ sq.parse_mode = ParseMode.greedyOnceStarted
            · rw [if_pos h3] at hr
              have htail : (seqStep5 sq st em).tail = [] := by
                have hf : (seqGapStep sq st).firstMatch = true := h3.1
                exact hinv1.2 hf
              rw [htail] at hr
              cases ht : trim_to_terminator (seqStep5 sq st em).unmatched []
                  (ctx.terminators ++ sq.terminators) ctx with
              | error e => rw [ht] at hr; exact Except.noConfusion hr
              | ok ut =>
                obtain ⟨u, t⟩ := ut
                rw [ht] at hr
                have huts : u ++ t = (seqStep5 sq st em).unmatched :=
                  trim_conserves ctx hg _ _ u t ht
                exact ih hrest _
                  (seqInv_retail input (seqStep5 sq st em) u t hinv2 htail huts) r hr
            · rw [if_neg h3] at hr
              exact ih hrest _ hinv2 r hr

/-- Claim C1: token conservation for `Sequence::match_segments` — for
every sequence, input and context, provided each element matcher and the
greedy collaborator conserve tokens (the spec asserts this universal
property of every matcher), the concatenation of the returned matched and
unmatched segments equals the original input after filtering out the
zero-width meta segments, in order. -/
theorem claim_C1_token_conservation (sq : Sequence) (segments : List Seg)
    (ctx : ParseContext) (r : MatchResult)
    (helems : ∀ e ∈ sq.elements, conserves e)
    (hg : greedyConserves ctx)
    (hok : Sequence.matchSegments sq segments ctx = .ok r) :
    nonMetas (r.matched_segments ++ r.unmatched_segments) = nonMetas segments :=
  go_conserves sq segments ctx hg sq.elements helems (SeqState.init segments)
    ⟨by simp [SeqState.init, nonMetas], by intro _; rfl⟩ r hok

/-- The harness literal matcher conserves tokens: it either moves the
leading token into the match or leaves everything unmatched. -/
theorem strMatcher_conserves (t : String) : conserves (strMatcher t) := by
  intro segs r h
  cases segs with
  | nil =>
    simp only [strMatcher, Except.ok.injEq] at h
    subst h
    rfl
  | cons s rest =>
    simp only [strMatcher] at h
    split at h
    · have hr := Except.ok.inj h
      subst hr
      rfl
    · have hr := Except.ok.inj h
      subst hr
      rfl

/-- The terminator-blind greedy collaborator of `ctx0` conserves tokens. -/
theorem ctx0_greedyConserves : greedyConserves ctx0 := by
  intro segs ts r h
  simp only [ctx0, greedyNone, Except.ok.injEq] at h
  subst h
  rfl

/-- Witness for C1: the sequence `bar foo` on the repository's own test
stream `bar, whitespace, foo` — the matched and unmatched spans together
are exactly the input (no metas involved here). -/
theorem witness_C1_token_conservation :
    nonMetas (([codeTok "bar", wsTok, codeTok "foo"] : List Seg) ++ ([] : List Seg))
      = nonMetas [codeTok "bar", wsTok, codeTok "foo"] :=
  claim_C1_token_conservation
    (Sequence.new [strMatcher "bar", strMatcher "foo"])
    [codeTok "bar", wsTok, codeTok "foo"] ctx0
    { matched_segments := [codeTok "bar", wsTok, codeTok "foo"],
      unmatched_segments := [] }
    (by
      intro e he
      simp only [Sequence.new, List.mem_cons, List.not_mem_nil, or_false] at he
      rcases he with he | he <;> rw [he] <;> exact strMatcher_conserves _)
    ctx0_greedyConserves
    rfl

/-- When every listed element is optional the accumulator loop of
`Sequence::simple` scans the whole list, computing the running union. -/
theorem simpleGo_all_optional (es : List Matchable) :
    ∀ r0 t0 : Finset String, (∀ x ∈ es, x.is_optional = true) →
    simpleGo es r0 t0 =
      (simpleUnionSpec es).map (fun p => (r0 ∪ p.1, t0 ∪ p.2)) := by
  induction es with
  | nil => intro r0 t0 _; simp [simpleGo, simpleUnionSpec]
  | cons e es ih =>
    intro r0 t0 h
    have he : e.is_optional = true := h e (by simp)
    have hrest : ∀ x ∈ es, x.is_optional = true :=
      fun x hx => h x (List.mem_cons_of_mem _ hx)
    simp only [simpleGo, simpleUnionSpec, List.append_eq]
    cases hf : e.simpleFn with
    | none => simp
    | some p =>
      obtain ⟨r, t⟩ := p
      dsimp only
      rw [ih (r0 ∪ r) (t0 ∪ t) hrest]
      cases hu : simpleUnionSpec es with
      | none => simp [he]
      | some q =>
        obtain ⟨R, T⟩ := q
        simp [he, Finset.union_assoc]

/-- The accumulator loop of `Sequence::simple` stops at the first
non-optional element, returning the union over the optional prefix and
that element. -/
theorem simpleGo_stop (pre : List Matchable) (e : Matchable)
    (post : List Matchable) :
    ∀ r0 t0 : Finset String, (∀ x ∈ pre, x.is_optional = true) →
    e.is_optional = false →
    simpleGo (pre ++ e :: post) r0 t0 =
      (simpleUnionSpec (pre ++ [e])).map (fun p => (r0 ∪ p.1, t0 ∪ p.2)) := by
  induction pre with
  | nil =>
    intro r0 t0 _ hopt
    simp only [List.nil_append, simpleGo, simpleUnionSpec]
    cases hf : e.simpleFn with
    | none => simp
    | some p =>
      obtain ⟨r, t⟩ := p
      simp [hopt]
  | cons x pre ih =>
    intro r0 t0 h hopt
    have hx : x.is_optional = true := h x (by simp)
    have hpre : ∀ y ∈ pre, y.is_optional = true :=
      fun y hy => h y (List.mem_cons_of_mem _ hy)
    simp only [List.cons_append, simpleGo, simpleUnionSpec, List.append_eq]
    cases hf : x.simpleFn with
    | none => simp
    | some p =>
      obtain ⟨r, t⟩ := p
      dsimp only
      rw [ih (r0 ∪ r) (t0 ∪ t) hpre hopt]
      cases hu : simpleUnionSpec (pre ++ [e]) with
      | none => simp [hx]
      | some q =>
        obtain ⟨R, T⟩ := q
        simp [hx, Finset.union_assoc]

/-- Claim C8: `Sequence::simple` is the union of the prefilter sets of
the leading optional elements together with the first non-optional
element, stopping there; when every element is optional it is the union
over all elements (in both cases `None` as soon as any scanned element
has no prefilter, matching the source's early return). -/
theorem claim_C8_sequence_simple (sq : Sequence) :
    (∀ pre e post, sq.elements = pre ++ e :: post →
      (∀ x ∈ pre, x.is_optional = true) → e.is_optional = false →
      Sequence.simple sq = simpleUnionSpec (pre ++ [e]))
    ∧ ((∀ x ∈ sq.elements, x.is_optional = true) →
      Sequence.simple sq = simpleUnionSpec sq.elements) := by
  constructor
  · intro pre e post helems hpre hopt
    unfold Sequence.simple
    rw [helems, simpleGo_stop pre e post ∅ ∅ hpre hopt]
    cases hu : simpleUnionSpec (pre ++ [e]) with
    | none => simp
    | some q => obtain ⟨R, T⟩ := q; simp
  · intro h
    unfold Sequence.simple
    rw [simpleGo_all_optional sq.elements ∅ ∅ h]
    cases hu : simpleUnionSpec sq.elements with
    | none => simp
    | some q => obtain ⟨R, T⟩ := q; simp

/-- Witness for C8: with a leading optional element and a required second
element the prefilter union stops before the third element, and with all
elements optional it covers them all. -/
theorem witness_C8_sequence_simple :
    Sequence.simple sqC8a = simpleUnionSpec [optMatcher "a", strMatcher "b"]
    ∧ Sequence.simple sqC8b = simpleUnionSpec [optMatcher "a", optMatcher "b"] :=
  ⟨(claim_C8_sequence_simple sqC8a).1 [optMatcher "a"] (strMatcher "b")
      [strMatcher "c"] rfl
      (by intro x hx; simp only [List.mem_singleton] at hx; rw [hx]; rfl) rfl,
   (claim_C8_sequence_simple sqC8b).2
      (by
        intro x hx
        simp only [sqC8b, Sequence.new, List.mem_cons, List.mem_singleton,
          List.not_mem_nil, or_false] at hx
        rcases hx with hx | hx <;> rw [hx] <;> rfl)⟩

/-- Claim C9: the partially implemented `Bracketed::match_segments` never
returns normally with a successful match — once the open bracket matcher
has matched, every continuation (pre-folded `bracketed` input, missing
close bracket, failed inner content, and even the fully successful path)
ends in a panic or a propagated error; the only normal return that can
carry a matched open bracket does not exist, and a normal return is
always the no-match result for an input whose open bracket failed. -/
theorem claim_C9_bracketed_never_succeeds (b : Bracketed) (segments : List Seg)
    (ctx : ParseContext) (sb eb : Matchable) (p : Bool)
    (hres : ctx.getBracket b.bracket_pairs_set b.bracket_type = some (sb, eb, p)) :
    (∀ sm, sb.matchFn segments = .ok sm → sm.has_match = true →
      (Bracketed.match_segments b segments ctx).isAbnormal = true)
    ∧ (∀ r sm, Bracketed.match_segments b segments ctx = .ok r →
      sb.matchFn segments = .ok sm →
      sm.has_match = false ∧ r = MatchResult.from_unmatched segments) := by
  constructor
  · intro sm hsm hhm
    unfold Bracketed.match_segments
    rw [hres]
    dsimp only
    split
    · rfl
    · rw [hsm]
      dsimp only
      rw [if_neg (by simp [hhm])]
      split
      · rfl
      · split
        · rfl
        · split
          · rfl
          · split
            · rfl
            · rfl
  · intro r sm hok hsm
    unfold Bracketed.match_segments at hok
    rw [hres] at hok
    dsimp only at hok
    split at hok
    · exact Outcome.noConfusion hok
    · rw [hsm] at hok
      dsimp only at hok
      split at hok
      case isTrue hnm =>
        refine ⟨by simpa using hnm, ?_⟩
        have := Outcome.ok.inj hok
        exact this.symm
      case isFalse hnm =>
        split at hok
        · exact Outcome.noConfusion hok
        · split at hok
          · exact Outcome.noConfusion hok
          · split at hok
            · exact Outcome.noConfusion hok
            · split at hok
              · exact Outcome.noConfusion hok
              · exact Outcome.noConfusion hok

/-- Witness for C9 at a concrete bracketed grammar: on `( x` the open
bracket matches and the call ends abnormally (here: the missing-close
panic). -/
theorem witness_C9_bracketed_never_succeeds :
    (Bracketed.match_segments bC3 inOpenNoClose ctx3).isAbnormal = true :=
  (claim_C9_bracketed_never_succeeds bC3 inOpenNoClose ctx3
      (strMatcher "(") (strMatcher ")") true rfl).1
    { matched_segments := [codeTok "("], unmatched_segments := [codeTok "x"] }
    rfl rfl

/-- Counterexample for C3: as stated the claim fails twice on the code.
On `( x` (open bracket matches, no close anywhere) the call does not fail
with the `UnbalancedBrackets` error — it panics.  And on an input that is
a single pre-folded `bracketed` segment the open matcher does not match,
yet the call panics at the unimplemented case instead of returning the
no-match result. -/
theorem counterexample_C3_bracketed :
    (Bracketed.match_segments bC3 inOpenNoClose ctx3 = .panicked closeMsg
      ∧ Bracketed.match_segments bC3 inOpenNoClose ctx3
          ≠ .err SQLParseError.unbalancedBrackets)
    ∧ (Bracketed.match_segments bC3 inPreBracketed ctx3 = .panicked notImplementedMsg
      ∧ Bracketed.match_segments bC3 inPreBracketed ctx3
          ≠ .ok (MatchResult.from_unmatched inPreBracketed)) := by
  refine ⟨⟨rfl, ?_⟩, ⟨rfl, ?_⟩⟩ <;> decide

/-- Claim C3 as amended: provided the bracket pair resolves and the
gap-trimmed input does not end in a pre-folded `bracketed` segment (that
unimplemented case panics), `Bracketed::match_segments` returns the
no-match result — nothing consumed, the full original input unmatched —
whenever the open bracket matcher does not match; and when the open
bracket matches but the bracket-sensitive look-ahead finds no close
bracket, the call fails fatally with the missing-close panic (the
source's rendering of the fatal `UnbalancedBrackets` condition) rather
than returning a no-match. -/
theorem claim_C3_bracketed_open_and_close (b : Bracketed) (segments : List Seg)
    (ctx : ParseContext) (sb eb : Matchable) (p : Bool)
    (hres : ctx.getBracket b.bracket_pairs_set b.bracket_type = some (sb, eb, p))
    (hlast : lastIsBracketed (Bracketed.segBuff b segments) = false) :
    (∀ sm, sb.matchFn segments = .ok sm → sm.has_match = false →
      Bracketed.match_segments b segments ctx =
        .ok (MatchResult.from_unmatched segments))
    ∧ (∀ sm cs em post2, sb.matchFn segments = .ok sm → sm.has_match = true →
      ctx.lookAhead sm.unmatched_segments [eb] sb eb b.bracket_pairs_set
        = .ok (cs, em, post2) →
      em.has_match = false →
      Bracketed.match_segments b segments ctx = .panicked closeMsg) := by
  constructor
  · intro sm hsm hnm
    unfold Bracketed.match_segments
    rw [hres]
    dsimp only
    rw [if_neg (by simp [hlast]), hsm]
    dsimp only
    rw [if_pos (by simp [hnm])]
  · intro sm cs em post2 hsm hhm hla hem
    unfold Bracketed.match_segments
    rw [hres]
    dsimp only
    rw [if_neg (by simp [hlast]), hsm]
    dsimp only
    rw [if_neg (by simp [hhm]), hla]
    dsimp only
    rw [if_pos (by simp [hem])]

/-- Witness for C3 (amended): with literal parentheses resolved, the open
bracket fails on `y` and the call returns the untouched no-match, while on
`( x` the close is never found and the call ends in the missing-close
panic. -/
theorem witness_C3_bracketed_open_and_close :
    Bracketed.match_segments bC3 inNoOpen ctx3 =
      .ok (MatchResult.from_unmatched inNoOpen)
    ∧ Bracketed.match_segments bC3 inOpenNoClose ctx3 = .panicked closeMsg :=
  ⟨(claim_C3_bracketed_open_and_close bC3 inNoOpen ctx3
      (strMatcher "(") (strMatcher ")") true rfl rfl).1
      (MatchResult.from_unmatched inNoOpen) rfl rfl,
   (claim_C3_bracketed_open_and_close bC3 inOpenNoClose ctx3
      (strMatcher "(") (strMatcher ")") true rfl rfl).2
      { matched_segments := [codeTok "("], unmatched_segments := [codeTok "x"] }
      [codeTok "x"] (MatchResult.from_unmatched [codeTok "x"]) [] rfl rfl rfl rfl⟩

/-- Witness for C6: a strict sequence wanting `foo` aborts on the input
`bar`, returning it untouched. -/
theorem witness_C6_strict_abort :
    Sequence.go (Sequence.new [strMatcher "foo"]) [codeTok "bar"] ctx0
      [strMatcher "foo"] (SeqState.init [codeTok "bar"]) =
      .ok { matched_segments := [], unmatched_segments := [codeTok "bar"] } :=
  claim_C6_strict_abort (Sequence.new [strMatcher "foo"]) [codeTok "bar"] ctx0
    (strMatcher "foo") [] (SeqState.init [codeTok "bar"])
    (MatchResult.from_unmatched [codeTok "bar"]) rfl rfl rfl rfl rfl

end Sqruff
